import Mathlib

/-!
Verification development for the innerself-ai three-card server.

The server (src/index.js, two concatenated revisions, and src/unnamed/part_001,
a third revision) receives a question, an optional context and fixed card
labels, asks an external generation service for a JSON envelope, extracts the
textual payload from the raw reply, parses it, and on any failure substitutes
a deterministic fallback envelope.

This file gives a shallow embedding of that pipeline:
  - Json models the JavaScript JSON value universe.  Numeric literals are
    modelled as integers; the service contract of this server carries no
    fractional numbers, and no claim mentions them.  Object members keep
    insertion order, as JavaScript objects do for the string keys used here.
  - encode models JSON.stringify (compact form, as used by safeJSONString,
    src/index.js line 352), jsonParse models JSON.parse via a fuel-indexed
    recursive-descent parser.  Fractional and exponent numeric literals and
    surrogate-pair escapes are rejected by the model parser; no input in any
    claim contains them.
  - extractText, parseModelJSON, the fallback generators and the route
    handlers are translated line by line from the source revisions, with the
    source location recorded on each definition.
-/

/-- JavaScript JSON values.  num carries an integer, see the module comment. -/
inductive Json where
  | null : Json
  | bool (b : Bool) : Json
  | num (n : Int) : Json
  | str (s : String) : Json
  | arr (elems : List Json) : Json
  | obj (members : List (String × Json)) : Json
  deriving Repr

/-- Whitespace recognised by the JSON grammar (RFC 8259), as skipped by
JSON.parse between tokens. -/
def isJsonWs (c : Char) : Bool :=
  c = ' ' || c = '\t' || c = '\n' || c = '\r'

/-- Whitespace trimmed by the JavaScript String.prototype.trim.  The model
covers the ASCII part (space, tab, line feed, carriage return, vertical tab,
form feed); the Unicode space classes never occur in any claim input. -/
def isJsWs (c : Char) : Bool :=
  c = ' ' || c = '\t' || c = '\n' || c = '\r' || c = '\x0b' || c = '\x0c'

/-- Drop JSON whitespace from the front of the character stream. -/
def skipWs (s : List Char) : List Char := s.dropWhile isJsonWs

/-- Model of the JavaScript String.prototype.trim on the character list. -/
def jsTrimList (l : List Char) : List Char :=
  ((l.dropWhile isJsWs).reverse.dropWhile isJsWs).reverse

/-- Model of the JavaScript String.prototype.trim. -/
def jsTrim (s : String) : String := String.mk (jsTrimList s.data)

/-- Model of the JavaScript String.prototype.slice with arguments 0 and n
(character count; the sources slice diagnostic previews to 300 or 400). -/
def jsSlice (s : String) (n : Nat) : String := String.mk (s.data.take n)

/-- Hexadecimal digit character for a value below 16, lower case, as emitted
by JSON.stringify short unicode escapes. -/
def hexDigitChar (n : Nat) : Char :=
  if n < 10 then Char.ofNat (48 + n) else Char.ofNat (87 + n)

/-- Value of a hexadecimal digit character, if it is one. -/
def hexVal (c : Char) : Option Nat :=
  if 48 ≤ c.toNat ∧ c.toNat ≤ 57 then some (c.toNat - 48)
  else if 97 ≤ c.toNat ∧ c.toNat ≤ 102 then some (c.toNat - 87)
  else if 65 ≤ c.toNat ∧ c.toNat ≤ 70 then some (c.toNat - 55)
  else none

/-- Escape of one character inside a JSON string literal, exactly the output
vocabulary of JSON.stringify: quote and backslash escaped, the five named
control escapes, short unicode escapes for the remaining control characters,
every other character emitted verbatim. -/
def escChar (c : Char) : List Char :=
  if c = '"' then ['\\', '"']
  else if c = '\\' then ['\\', '\\']
  else if c = '\n' then ['\\', 'n']
  else if c = '\r' then ['\\', 'r']
  else if c = '\t' then ['\\', 't']
  else if c = '\x08' then ['\\', 'b']
  else if c = '\x0c' then ['\\', 'f']
  else if c.toNat < 32 then
    ['\\', 'u', '0', '0', hexDigitChar (c.toNat / 16), hexDigitChar (c.toNat % 16)]
  else [c]

/-- Escaped form of a character list, the body of a JSON string literal. -/
def escapeList (l : List Char) : List Char :=
  l.foldr (fun c acc => escChar c ++ acc) []

/-- JSON string literal for s, including the surrounding quotes. -/
def encodeStringChars (s : String) : List Char :=
  '"' :: escapeList s.data ++ ['"']

mutual
/-- Model of JSON.stringify in its compact form (no indentation), as invoked
by safeJSONString (src/index.js line 352) and by res.json. -/
def encode : Json → List Char
  | .null => "null".data
  | .bool true => "true".data
  | .bool false => "false".data
  | .num n => (toString n).data
  | .str s => encodeStringChars s
  | .arr xs => '[' :: encodeItems xs ++ [']']
  | .obj ms => '{' :: encodeMembers ms ++ ['}']
/-- Comma-separated encoding of array elements. -/
def encodeItems : List Json → List Char
  | [] => []
  | [x] => encode x
  | x :: y :: t => encode x ++ ',' :: encodeItems (y :: t)
/-- Comma-separated encoding of object members. -/
def encodeMembers : List (String × Json) → List Char
  | [] => []
  | [(k, v)] => encodeStringChars k ++ ':' :: encode v
  | (k, v) :: m :: t => encodeStringChars k ++ ':' :: encode v ++ ',' :: encodeMembers (m :: t)
end

/-- Model of JSON.stringify producing a String.  safeJSONString
(src/index.js lines 352-354) is JSON.stringify with indent 0, which is the
compact form. -/
def safeJSONString (j : Json) : String := String.mk (encode j)

/-- Prefix one character onto the string being accumulated by the string
literal scanner. -/
def consScan (c : Char) : Option (List Char × List Char) → Option (List Char × List Char)
  | some (cs, rest) => some (c :: cs, rest)
  | none => none

/-- Scanner for the body of a JSON string literal (the opening quote already
consumed).  Returns the decoded characters and the input after the closing
quote.  Raw control characters are rejected, as JSON.parse rejects them.
A unicode escape is decoded through Char.ofNat; surrogate halves (which
JavaScript would splice into UTF-16 code units) fall outside the scalar
values Lean characters can hold and never occur in any claim input. -/
def parseStringChars : List Char → Option (List Char × List Char)
  | [] => none
  | c :: rest =>
    if c = '"' then some ([], rest)
    else if c = '\\' then
      match rest with
      | [] => none
      | e :: rest2 =>
        if e = '"' then consScan '"' (parseStringChars rest2)
        else if e = '\\' then consScan '\\' (parseStringChars rest2)
        else if e = '/' then consScan '/' (parseStringChars rest2)
        else if e = 'b' then consScan '\x08' (parseStringChars rest2)
        else if e = 'f' then consScan '\x0c' (parseStringChars rest2)
        else if e = 'n' then consScan '\n' (parseStringChars rest2)
        else if e = 'r' then consScan '\r' (parseStringChars rest2)
        else if e = 't' then consScan '\t' (parseStringChars rest2)
        else if e = 'u' then
          match rest2 with
          | h1 :: h2 :: h3 :: h4 :: rest3 =>
            match hexVal h1, hexVal h2, hexVal h3, hexVal h4 with
            | some a, some b, some c3, some d =>
              consScan (Char.ofNat (((a * 16 + b) * 16 + c3) * 16 + d)) (parseStringChars rest3)
            | _, _, _, _ => none
          | _ => none
        else none
    else if c.toNat < 32 then none
    else consScan c (parseStringChars rest)

/-- Numeric value of a run of decimal digit characters. -/
def digitsToNat (ds : List Char) : Nat :=
  ds.foldl (fun a c => a * 10 + (c.toNat - 48)) 0

/-- Integer numeric literal at the head of the stream: optional minus sign,
then digits without a redundant leading zero, not followed by a fraction or
exponent part (which the model does not support, see the module comment). -/
def parseNumberToken (s : List Char) : Option (Json × List Char) :=
  let core : List Char → Bool → Option (Json × List Char) := fun t neg =>
    let ds := t.takeWhile Char.isDigit
    let rest := t.dropWhile Char.isDigit
    if ds.isEmpty then none
    else if ds.length > 1 ∧ ds.headD ' ' = '0' then none
    else
      match rest with
      | '.' :: _ => none
      | 'e' :: _ => none
      | 'E' :: _ => none
      | _ =>
        let n : Int := Int.ofNat (digitsToNat ds)
        some (.num (if neg then -n else n), rest)
  match s with
  | '-' :: t => core t true
  | t => core t false

mutual
/-- Fuel-indexed recursive-descent parser for one JSON value, modelling
JSON.parse.  Whitespace is skipped before the value; the value ends exactly
where its grammar ends. -/
def parseValue : Nat → List Char → Option (Json × List Char)
  | 0, _ => none
  | fuel + 1, s =>
    match skipWs s with
    | 'n' :: 'u' :: 'l' :: 'l' :: rest => some (.null, rest)
    | 't' :: 'r' :: 'u' :: 'e' :: rest => some (.bool true, rest)
    | 'f' :: 'a' :: 'l' :: 's' :: 'e' :: rest => some (.bool false, rest)
    | '"' :: rest =>
      match parseStringChars rest with
      | some (cs, rest2) => some (.str (String.mk cs), rest2)
      | none => none
    | '[' :: rest =>
      match skipWs rest with
      | ']' :: rest2 => some (.arr [], rest2)
      | s2 =>
        match parseItems fuel s2 with
        | some (vs, rest2) => some (.arr vs, rest2)
        | none => none
    | '{' :: rest =>
      match skipWs rest with
      | '}' :: rest2 => some (.obj [], rest2)
      | s2 =>
        match parseMembers fuel s2 with
        | some (ms, rest2) => some (.obj ms, rest2)
        | none => none
    | s1 => parseNumberToken s1
/-- One or more comma-separated array elements followed by the closing
bracket. -/
def parseItems : Nat → List Char → Option (List Json × List Char)
  | 0, _ => none
  | fuel + 1, s =>
    match parseValue fuel s with
    | some (v, rest) =>
      match skipWs rest with
      | ',' :: rest2 =>
        match parseItems fuel rest2 with
        | some (vs, rest3) => some (v :: vs, rest3)
        | none => none
      | ']' :: rest2 => some ([v], rest2)
      | _ => none
    | none => none
/-- One or more comma-separated object members followed by the closing
brace. -/
def parseMembers : Nat → List Char → Option (List (String × Json) × List Char)
  | 0, _ => none
  | fuel + 1, s =>
    match skipWs s with
    | '"' :: rest =>
      match parseStringChars rest with
      | some (kcs, rest2) =>
        match skipWs rest2 with
        | ':' :: rest3 =>
          match parseValue fuel rest3 with
          | some (v, rest4) =>
            match skipWs rest4 with
            | ',' :: rest5 =>
              match parseMembers fuel rest5 with
              | some (ms, rest6) => some ((String.mk kcs, v) :: ms, rest6)
              | none => none
            | '}' :: rest5 => some ([(String.mk kcs, v)], rest5)
            | _ => none
          | none => none
        | _ => none
      | none => none
    | _ => none
end

/-- Model of JSON.parse on a whole string: one value, then only whitespace
may remain.  The fuel, one more than the input length, is an upper bound on
the recursion depth and is shown sufficient for every serialised value by
the round-trip theorems below. -/
def jsonParse (s : String) : Option Json :=
  let cs := s.data
  match parseValue (cs.length + 1) cs with
  | some (v, rest) => if (skipWs rest).isEmpty then some v else none
  | none => none

/-! ## Tolerant model-output parsing (src/index.js lines 51-67) -/

/-- Error vocabulary of parseModelJSON (src/index.js lines 51-67): the thrown
error carries a code and, for a parse failure, a bounded preview of the
offending text.  The underlying SyntaxError message (err.details) is not
tracked by the model; no claim depends on it. -/
inductive ParseErr where
  | emptyModelOutput : ParseErr
  | jsonParseFailed (preview : String) : ParseErr
  deriving Repr, DecidableEq

/-- Embedding of parseModelJSON (src/index.js lines 51-67): trim, throw
EMPTY_MODEL_OUTPUT when nothing remains, otherwise one direct JSON.parse
attempt, a failure of which throws JSON_PARSE_FAILED with a 300-character
preview.  The Option argument models the nullish coalescing (raw ?? ""). -/
def parseModelJSON (raw : Option String) : Except ParseErr Json :=
  let s := jsTrim (raw.getD "")
  if s.isEmpty then .error .emptyModelOutput
  else
    match jsonParse s with
    | some v => .ok v
    | none => .error (.jsonParseFailed (jsSlice s 300))

/-- Error vocabulary of the second-revision parseModelJSON (src/index.js
lines 356-361), which throws a plain Error for emptiness and lets the
SyntaxError of JSON.parse escape untouched. -/
inductive ParseErrV2 where
  | emptyModelOutput : ParseErrV2
  | jsonSyntaxError : ParseErrV2
  deriving Repr, DecidableEq

/-- Embedding of the second-revision parseModelJSON (src/index.js lines
356-361): trim, plain error when empty, one direct JSON.parse attempt. -/
def parseModelJSONV2 (text : Option String) : Except ParseErrV2 Json :=
  let trimmed := jsTrim (text.getD "")
  if trimmed.isEmpty then .error .emptyModelOutput
  else
    match jsonParse trimmed with
    | some v => .ok v
    | none => .error .jsonSyntaxError

/-! ## Raw reply envelope and text extraction (src/index.js lines 25-49) -/

/-- One content block of the raw reply.  The source only ever reads the text
field (src/index.js line 40); a block produced under strict schema mode may
additionally carry an already-parsed object, modelled by the parsed field,
which the source never reads.  A text field that is absent or not a string
is modelled as none, matching the typeof check of the source. -/
structure ContentBlock where
  text : Option String
  parsed : Option Json

/-- One output item of the raw reply; content that is absent or not an array
is modelled as none. -/
structure OutputItem where
  content : Option (List ContentBlock)

/-- Raw reply envelope of the generation service as consumed by extractText:
the top-level convenience text (none when absent or not a string) and the
nested output list. -/
structure RawReply where
  output_text : Option String
  output : Option (List OutputItem)

/-- Inner loop of extractText (src/index.js lines 34-45): walk the items and
their content blocks, pushing every non-empty string text field. -/
def collectChunks (out : Option (List OutputItem)) : List String :=
  match out with
  | some items =>
    items.foldl (fun acc item =>
      match item.content with
      | some content =>
        content.foldl (fun acc2 c =>
          match c.text with
          | some t => if t.length > 0 then acc2 ++ [t] else acc2
          | none => acc2) acc
      | none => acc) []
  | none => []

/-- Embedding of extractText (src/index.js lines 25-49): prefer a non-empty
top-level output_text, otherwise join the collected block texts, otherwise
the empty string. -/
def extractText (resp : RawReply) : String :=
  match resp.output_text with
  | some s =>
    if s.length > 0 then s
    else
      let chunks := collectChunks resp.output
      if chunks.length > 0 then String.join chunks else ""
  | none =>
    let chunks := collectChunks resp.output
    if chunks.length > 0 then String.join chunks else ""

/-- Text carried by one block, as the specification describes it: the text
field when it is a non-empty string. -/
def usableText (c : ContentBlock) : Option String :=
  match c.text with
  | some t => if t ≠ "" then some t else none
  | none => none

/-- Specification-side description of the block walk: the texts carried by
the nested content blocks, in list order. -/
def specContentTexts (out : Option (List OutputItem)) : List String :=
  match out with
  | some items => (items.map (fun item => (item.content.getD []).filterMap usableText)).flatten
  | none => []

/-- Specification-side description of extraction (spec section 4.3): the
top-level convenience text when non-empty, otherwise the concatenation in
list order of the texts carried by the content blocks, otherwise empty. -/
def specExtractText (resp : RawReply) : String :=
  match resp.output_text with
  | some s => if s ≠ "" then s else String.join (specContentTexts resp.output)
  | none => String.join (specContentTexts resp.output)

/-- Erase every parsed object carried by the content blocks of a reply,
leaving all text untouched. -/
def eraseParsed (resp : RawReply) : RawReply :=
  { output_text := resp.output_text,
    output := resp.output.map (List.map (fun item =>
      { content := item.content.map (List.map (fun c =>
          { text := c.text, parsed := none })) })) }

/-! ## Context normalization and fallback envelopes -/

/-- Model of the nullish coalescing (context ?? null) used by the first and
third revision fallbacks (src/index.js line 197, src/unnamed/part_001 line
209): undefined and null become null, every other value passes through
unchanged, including the empty string. -/
def jsNullish : Option Json → Json
  | none => .null
  | some .null => .null
  | some v => v

/-- Embedding of normalizeContext (src/index.js lines 347-350): coalesce
undefined and null to the empty string, trim, return null when nothing
remains.  Modelled on the nullish-or-string domain; a non-string context
would make the JavaScript code throw inside trim, and no claim supplies
one. -/
def normalizeContext (context : Option String) : Option String :=
  let c := jsTrim (context.getD "")
  if c.length ≠ 0 then some c else none

/-- Context field value produced from the result of normalizeContext. -/
def contextValue : Option String → Json
  | some c => .str c
  | none => .null

/-- Embedding of fallbackBasicResponse (src/index.js lines 192-204, likewise
src/unnamed/part_001 lines 204-216): fixed prose combined with the verbatim
card labels; context is (context ?? null).  The card list always has length
3 when the handler calls this (an out-of-range access, impossible there, is
given the default null). -/
def fallbackBasicResponse (question : Json) (context : Option Json)
    (mainCards : List Json) : Json :=
  .obj [
    ("version", .str "basic_v1_json"),
    ("language", .str "zh-Hant"),
    ("question", question),
    ("context", jsNullish context),
    ("directions", .arr [
      .obj [("id", .str "A"), ("cardText", mainCards.getD 0 .null),
            ("actionDirection", .str "先把注意力拉回可控的一步"),
            ("possibleOutcome", .str "焦慮下降，下一步更容易啟動。")],
      .obj [("id", .str "B"), ("cardText", mainCards.getD 1 .null),
            ("actionDirection", .str "用小試探換取更真實的回饋"),
            ("possibleOutcome", .str "資訊變多，判斷會更貼近現況。")],
      .obj [("id", .str "C"), ("cardText", mainCards.getD 2 .null),
            ("actionDirection", .str "調整節奏與界線後再往前推"),
            ("possibleOutcome", .str "消耗變少，行動更能持續。")]])]

/-- Embedding of fallbackClearResponse (src/index.js lines 206-248, likewise
src/unnamed/part_001 lines 218-260): three directions A, B, C, each with
three branches carrying the verbatim branch card labels. -/
def fallbackClearResponse (question : Json) (context : Option Json)
    (mainCards branchCards : List Json) : Json :=
  .obj [
    ("version", .str "clear_v1_json"),
    ("language", .str "zh-Hant"),
    ("question", question),
    ("context", jsNullish context),
    ("directions", .arr [
      .obj [("id", .str "A"), ("cardText", mainCards.getD 0 .null),
            ("actionDirection", .str "先觀察整體狀態再推進"),
            ("possibleOutcome", .str "方向會逐漸明朗，但仍需時間。"),
            ("branches", .arr [
              .obj [("id", .str "A-1"), ("cardText", branchCards.getD 0 .null),
                    ("possibleOutcome", .str "你會察覺目前的限制。")],
              .obj [("id", .str "A-2"), ("cardText", branchCards.getD 1 .null),
                    ("possibleOutcome", .str "節奏感會變得清楚。")],
              .obj [("id", .str "A-3"), ("cardText", branchCards.getD 2 .null),
                    ("possibleOutcome", .str "你會減少內在拉扯。")]])],
      .obj [("id", .str "B"), ("cardText", mainCards.getD 1 .null),
            ("actionDirection", .str "調整資源配置與界線"),
            ("possibleOutcome", .str "壓力降低，選擇更一致。"),
            ("branches", .arr [
              .obj [("id", .str "B-1"), ("cardText", branchCards.getD 3 .null),
                    ("possibleOutcome", .str "你會釐清真正的重點。")],
              .obj [("id", .str "B-2"), ("cardText", branchCards.getD 4 .null),
                    ("possibleOutcome", .str "會出現支援的可能。")],
              .obj [("id", .str "B-3"), ("cardText", branchCards.getD 5 .null),
                    ("possibleOutcome", .str "你會更安心行動。")]])],
      .obj [("id", .str "C"), ("cardText", mainCards.getD 2 .null),
            ("actionDirection", .str "先行動再修正方向"),
            ("possibleOutcome", .str "進展出現，但需反覆調整。"),
            ("branches", .arr [
              .obj [("id", .str "C-1"), ("cardText", branchCards.getD 6 .null),
                    ("possibleOutcome", .str "你會獲得實際回饋。")],
              .obj [("id", .str "C-2"), ("cardText", branchCards.getD 7 .null),
                    ("possibleOutcome", .str "假設會被重新檢視。")],
              .obj [("id", .str "C-3"), ("cardText", branchCards.getD 8 .null),
                    ("possibleOutcome", .str "下一步逐漸成形。")]])]])]

/-- Embedding of the second-revision fallbackBasicResponse (src/index.js
lines 566-578), which normalizes the context through normalizeContext. -/
def fallbackBasicResponseV2 (question : Json) (context : Option String)
    (mainCards : List Json) : Json :=
  .obj [
    ("version", .str "basic_v1_json"),
    ("language", .str "zh-Hant"),
    ("question", question),
    ("context", contextValue (normalizeContext context)),
    ("directions", .arr [
      .obj [("id", .str "A"), ("cardText", mainCards.getD 0 .null),
            ("actionDirection", .str "把焦點拉回真正想解決的核心點"),
            ("possibleOutcome", .str "雜訊變少，下一步更容易浮現。")],
      .obj [("id", .str "B"), ("cardText", mainCards.getD 1 .null),
            ("actionDirection", .str "做一個低風險的小試探來換取回饋"),
            ("possibleOutcome", .str "你會得到可用線索，心更安定。")],
      .obj [("id", .str "C"), ("cardText", mainCards.getD 2 .null),
            ("actionDirection", .str "調整節奏並維持可持續的推進方式"),
            ("possibleOutcome", .str "壓力下降，行動更容易延續。")]])]

/-- Embedding of the second-revision fallbackClearResponse (src/index.js
lines 522-564), which normalizes the context through normalizeContext. -/
def fallbackClearResponseV2 (question : Json) (context : Option String)
    (mainCards branchCards : List Json) : Json :=
  .obj [
    ("version", .str "clear_v1_json"),
    ("language", .str "zh-Hant"),
    ("question", question),
    ("context", contextValue (normalizeContext context)),
    ("directions", .arr [
      .obj [("id", .str "A"), ("cardText", mainCards.getD 0 .null),
            ("actionDirection", .str "先把問題拆小並保留可調整空間"),
            ("possibleOutcome", .str "焦慮下降些，方向感慢慢浮現。"),
            ("branches", .arr [
              .obj [("id", .str "A-1"), ("cardText", branchCards.getD 0 .null),
                    ("possibleOutcome", .str "你會更快看見阻力在哪裡。")],
              .obj [("id", .str "A-2"), ("cardText", branchCards.getD 1 .null),
                    ("possibleOutcome", .str "節奏變穩，拉扯感減少。")],
              .obj [("id", .str "A-3"), ("cardText", branchCards.getD 2 .null),
                    ("possibleOutcome", .str "你會更敢做出小嘗試。")]])],
      .obj [("id", .str "B"), ("cardText", mainCards.getD 1 .null),
            ("actionDirection", .str "先釐清界線與資源再做下一步選擇"),
            ("possibleOutcome", .str "選擇更一致，代價也更可控。"),
            ("branches", .arr [
              .obj [("id", .str "B-1"), ("cardText", branchCards.getD 3 .null),
                    ("possibleOutcome", .str "你會減少不必要的消耗。")],
              .obj [("id", .str "B-2"), ("cardText", branchCards.getD 4 .null),
                    ("possibleOutcome", .str "會出現可依靠的支援。")],
              .obj [("id", .str "B-3"), ("cardText", branchCards.getD 5 .null),
                    ("possibleOutcome", .str "你會更清楚自己在乎什麼。")]])],
      .obj [("id", .str "C"), ("cardText", mainCards.getD 2 .null),
            ("actionDirection", .str "先做最小行動並用回饋校準方向"),
            ("possibleOutcome", .str "進展出現，但也會暴露新問題。"),
            ("branches", .arr [
              .obj [("id", .str "C-1"), ("cardText", branchCards.getD 6 .null),
                    ("possibleOutcome", .str "你會更快拿到實際回饋。")],
              .obj [("id", .str "C-2"), ("cardText", branchCards.getD 7 .null),
                    ("possibleOutcome", .str "某個假設會被重新檢視。")],
              .obj [("id", .str "C-3"), ("cardText", branchCards.getD 8 .null),
                    ("possibleOutcome", .str "你會找到下一步著力點。")]])]])]

/-! ## Requests, generation outcome and the route handlers -/

/-- Truthiness of a JSON value under JavaScript coercion, as tested by the
boundary check (!question).  An absent field (undefined) is handled at the
Option layer by the handlers. -/
def jsFalsy : Json → Bool
  | .null => true
  | .bool b => !b
  | .num n => n == 0
  | .str s => s == ""
  | .arr _ => false
  | .obj _ => false

/-- The destructured request body (src/index.js line 252): each field is a
JSON value or absent. -/
structure ThreeCardRequest where
  question : Option Json
  context : Option Json
  mainCards : Option Json
  branchCards : Option Json

/-- Outcome of the awaited generation call: a raw reply envelope, or a
throw from the client (timeout, quota, transport), the condition the
specification names GENERATION_SERVICE_FAILED. -/
inductive GenOutcome where
  | ok (reply : RawReply)
  | failed

/-- Observable result of one request: a 400 client error (the message field
of the rejection body, which the second revision omits), or a 200 JSON
body. -/
inductive EndpointResult where
  | badRequest (message : Option String)
  | okJson (body : Json)

/-- Bridge from the JSON context field to the nullish-or-string domain on
which normalizeContext is modelled.  A nullish context behaves as an absent
one there; a non-string context would make the JavaScript fallback throw
and occurs in no claim. -/
def contextString : Option Json → Option String
  | some (.str s) => some s
  | _ => none

/-- Embedding of the first-revision basic handler (src/index.js lines
251-287): boundary checks, then the generation call; the extracted text is
parsed and returned on success, and any throw from the try block is answered
with the fallback envelope as a normal JSON response. -/
def handlerBasic (req : ThreeCardRequest) (gen : GenOutcome) : EndpointResult :=
  match req.question with
  | none => .badRequest (some "missing question")
  | some q =>
    if jsFalsy q then .badRequest (some "missing question")
    else
      match req.mainCards with
      | some (.arr cards) =>
        if cards.length == 3 then
          match gen with
          | .failed => .okJson (fallbackBasicResponse q req.context cards)
          | .ok reply =>
            match parseModelJSON (some (extractText reply)) with
            | .ok parsed => .okJson parsed
            | .error _ => .okJson (fallbackBasicResponse q req.context cards)
        else .badRequest (some "mainCards must be length 3")
      | _ => .badRequest (some "mainCards must be length 3")

/-- Embedding of the first-revision clear handler (src/index.js lines
290-325): like the basic one with the additional branch card boundary
check. -/
def handlerClear (req : ThreeCardRequest) (gen : GenOutcome) : EndpointResult :=
  match req.question with
  | none => .badRequest (some "missing question")
  | some q =>
    if jsFalsy q then .badRequest (some "missing question")
    else
      match req.mainCards with
      | some (.arr cards) =>
        if cards.length == 3 then
          match req.branchCards with
          | some (.arr branches) =>
            if branches.length == 9 then
              match gen with
              | .failed => .okJson (fallbackClearResponse q req.context cards branches)
              | .ok reply =>
                match parseModelJSON (some (extractText reply)) with
                | .ok parsed => .okJson parsed
                | .error _ => .okJson (fallbackClearResponse q req.context cards branches)
            else .badRequest (some "branchCards must be length 9")
          | _ => .badRequest (some "branchCards must be length 9")
        else .badRequest (some "mainCards must be length 3")
      | _ => .badRequest (some "mainCards must be length 3")

/-- Embedding of the second-revision clear handler (src/index.js lines
581-626, the strict schema revision): one combined boundary check rejecting
with a bare 400 body, then the generation call; the reply is reduced to its
trimmed output_text, which always goes through parseModelJSON, and any throw
is answered with the second-revision fallback. -/
def handlerClearV2 (req : ThreeCardRequest) (gen : GenOutcome) : EndpointResult :=
  let questionBad :=
    match req.question with
    | none => true
    | some q => jsFalsy q
  match req.mainCards, req.branchCards with
  | some (.arr cards), some (.arr branches) =>
    if questionBad || !(cards.length == 3) || !(branches.length == 9) then
      .badRequest none
    else
      match req.question with
      | some q =>
        match gen with
        | .failed =>
          .okJson (fallbackClearResponseV2 q (contextString req.context) cards branches)
        | .ok reply =>
          match parseModelJSONV2 (some (jsTrim (reply.output_text.getD ""))) with
          | .ok parsed => .okJson parsed
          | .error _ =>
            .okJson (fallbackClearResponseV2 q (contextString req.context) cards branches)
      | none => .badRequest none
  | _, _ => .badRequest none

/-! ## Schema validity (the V2 schema declarations, src/index.js 369-438) -/

/-- The value is a JSON string. -/
def isStrVal : Json → Bool
  | .str _ => true
  | _ => false

/-- The value is a JSON string or null (the context typing of both schema
declarations). -/
def isStrOrNull : Json → Bool
  | .str _ => true
  | .null => true
  | _ => false

/-- Every required key occurs among the members. -/
def requiredPresent (ms : List (String × Json)) (req : List String) : Bool :=
  req.all (fun k => ms.any (fun kv => kv.1 == k))

/-- Branch object typing of ClearV2Schema (src/index.js lines 391-405):
exactly the keys id, cardText, possibleOutcome, all strings, all
required. -/
def validBranchV2 (j : Json) : Bool :=
  match j with
  | .obj ms =>
    ms.all (fun kv =>
      (kv.1 == "id" || kv.1 == "cardText" || kv.1 == "possibleOutcome") && isStrVal kv.2)
    && requiredPresent ms ["id", "cardText", "possibleOutcome"]
  | _ => false

/-- Direction object typing of ClearV2Schema (src/index.js lines 382-407):
id drawn from the enum A, B, C; the three prose fields strings; branches an
array of exactly 3 valid branch objects; no other keys; all required. -/
def validDirClearV2 (j : Json) : Bool :=
  match j with
  | .obj ms =>
    ms.all (fun kv =>
      if kv.1 == "id" then
        match kv.2 with
        | .str s => s == "A" || s == "B" || s == "C"
        | _ => false
      else if kv.1 == "cardText" || kv.1 == "actionDirection" || kv.1 == "possibleOutcome" then
        isStrVal kv.2
      else if kv.1 == "branches" then
        match kv.2 with
        | .arr bs => bs.length == 3 && bs.all validBranchV2
        | _ => false
      else false)
    && requiredPresent ms ["id", "cardText", "actionDirection", "possibleOutcome", "branches"]
  | _ => false

/-- Direction object typing of BasicV2Schema (src/index.js lines 425-436). -/
def validDirBasicV2 (j : Json) : Bool :=
  match j with
  | .obj ms =>
    ms.all (fun kv =>
      if kv.1 == "id" then
        match kv.2 with
        | .str s => s == "A" || s == "B" || s == "C"
        | _ => false
      else if kv.1 == "cardText" || kv.1 == "actionDirection" || kv.1 == "possibleOutcome" then
        isStrVal kv.2
      else false)
    && requiredPresent ms ["id", "cardText", "actionDirection", "possibleOutcome"]
  | _ => false

/-- Envelope typing of BasicV2Schema (src/index.js lines 412-438): fixed
version and language tags, string question, string-or-null context,
directions an array of exactly 3 valid direction objects, no other keys
(additionalProperties false), all keys required. -/
def validBasicV2Schema (j : Json) : Bool :=
  match j with
  | .obj ms =>
    ms.all (fun kv =>
      if kv.1 == "version" then
        match kv.2 with
        | .str s => s == "basic_v1_json"
        | _ => false
      else if kv.1 == "language" then
        match kv.2 with
        | .str s => s == "zh-Hant"
        | _ => false
      else if kv.1 == "question" then isStrVal kv.2
      else if kv.1 == "context" then isStrOrNull kv.2
      else if kv.1 == "directions" then
        match kv.2 with
        | .arr ds => ds.length == 3 && ds.all validDirBasicV2
        | _ => false
      else false)
    && requiredPresent ms ["version", "language", "question", "context", "directions"]
  | _ => false

/-- Envelope typing of ClearV2Schema (src/index.js lines 369-410). -/
def validClearV2Schema (j : Json) : Bool :=
  match j with
  | .obj ms =>
    ms.all (fun kv =>
      if kv.1 == "version" then
        match kv.2 with
        | .str s => s == "clear_v1_json"
        | _ => false
      else if kv.1 == "language" then
        match kv.2 with
        | .str s => s == "zh-Hant"
        | _ => false
      else if kv.1 == "question" then isStrVal kv.2
      else if kv.1 == "context" then isStrOrNull kv.2
      else if kv.1 == "directions" then
        match kv.2 with
        | .arr ds => ds.length == 3 && ds.all validDirClearV2
        | _ => false
      else false)
    && requiredPresent ms ["version", "language", "question", "context", "directions"]
  | _ => false

/-! ## Section-3 structural invariants (spec sections 3 and 8) -/

/-- Member access on a JSON object (property read on the parsed value). -/
def jsonGet (j : Json) (key : String) : Option Json :=
  match j with
  | .obj ms => List.lookup key ms
  | _ => none

/-- Specification-side check of one basic direction: the expected positional
id and the verbatim input card label. -/
def specDirectionOk (d : Json) (id label : String) : Bool :=
  (match jsonGet d "id" with
   | some (.str s) => s == id
   | _ => false)
  && (match jsonGet d "cardText" with
      | some (.str s) => s == label
      | _ => false)

/-- Specification-side check of one branch: the expected composed id and the
verbatim input branch card label. -/
def specBranchOk (b : Json) (id label : String) : Bool :=
  (match jsonGet b "id" with
   | some (.str s) => s == id
   | _ => false)
  && (match jsonGet b "cardText" with
      | some (.str s) => s == label
      | _ => false)

/-- Section-3 structural invariants of a basic envelope, for the given input
card labels: exactly 3 directions with ids A, B, C in that order and each
cardText equal, character for character, to the corresponding label. -/
def specSec3Basic (mainCards : List String) (env : Json) : Bool :=
  match jsonGet env "directions", mainCards with
  | some (.arr [d0, d1, d2]), [m0, m1, m2] =>
    specDirectionOk d0 "A" m0 && specDirectionOk d1 "B" m1 && specDirectionOk d2 "C" m2
  | _, _ => false

/-- Section-3 check of one detailed direction: the basic direction check plus
exactly 3 branches with ids composed from the main id and positions 1 to 3,
in source order, each cardText the verbatim branch label. -/
def specDirectionClearOk (d : Json) (id label : String) (branchLabels : List String) : Bool :=
  specDirectionOk d id label
  && (match jsonGet d "branches", branchLabels with
      | some (.arr [b0, b1, b2]), [l0, l1, l2] =>
        specBranchOk b0 (id ++ "-1") l0 && specBranchOk b1 (id ++ "-2") l1
          && specBranchOk b2 (id ++ "-3") l2
      | _, _ => false)

/-- Section-3 structural invariants of a detailed envelope, for the given
main and branch card labels. -/
def specSec3Clear (mainCards branchCards : List String) (env : Json) : Bool :=
  match jsonGet env "directions", mainCards, branchCards with
  | some (.arr [d0, d1, d2]), [m0, m1, m2], [l0, l1, l2, l3, l4, l5, l6, l7, l8] =>
    specDirectionClearOk d0 "A" m0 [l0, l1, l2]
      && specDirectionClearOk d1 "B" m1 [l3, l4, l5]
      && specDirectionClearOk d2 "C" m2 [l6, l7, l8]
  | _, _, _ => false

/-- Modelled from the spec: the brace-carving recovery step of the
TolerantJSONParser (spec section 4.4), which no source revision implements.
It keeps the substring from the first opening brace through the last closing
brace, when both exist in that order. -/
def specBraceCarve (s : String) : Option String :=
  let fromFirst := s.data.dropWhile (fun c => c ≠ '{')
  let carved := (fromFirst.reverse.dropWhile (fun c => c ≠ '}')).reverse
  if carved.isEmpty then none else some (String.mk carved)

/-- No numeric literal occurs in the value.  Every schema-valid envelope is
number-free; the round-trip theorem is proved on this fragment. -/
def numFree : Json → Bool
  | .null => true
  | .bool _ => true
  | .num _ => false
  | .str _ => true
  | .arr [] => true
  | .arr (x :: xs) => numFree x && numFree (.arr xs)
  | .obj [] => true
  | .obj ((_, v) :: ms) => numFree v && numFree (.obj ms)

/-- Concrete schema-valid basic envelope used to witness the round-trip
theorem. -/
def sampleBasicEnvelope : Json :=
  .obj [
    ("version", .str "basic_v1_json"),
    ("language", .str "zh-Hant"),
    ("question", .str "q"),
    ("context", .null),
    ("directions", .arr [
      .obj [("id", .str "A"), ("cardText", .str "x"),
            ("actionDirection", .str "a"), ("possibleOutcome", .str "o")],
      .obj [("id", .str "B"), ("cardText", .str "y"),
            ("actionDirection", .str "b"), ("possibleOutcome", .str "p")],
      .obj [("id", .str "C"), ("cardText", .str "z"),
            ("actionDirection", .str "c"), ("possibleOutcome", .str "r")]])]

/-! ## Basic lemmas -/

theorem strLengthPos (s : String) : 0 < s.length ↔ s ≠ "" := by
  rw [String.length, Nat.pos_iff_ne_zero, ne_eq, List.length_eq_zero]
  constructor
  · intro h hc; rw [hc] at h; simp at h
  · intro h hc; exact h (by cases s; simp_all)

theorem stringMkEqEmpty (l : List Char) : String.mk l = "" ↔ l = [] := by
  constructor
  · intro h
    have h2 : String.mk l = String.mk [] := h
    injection h2
  · intro h; rw [h]

theorem jsTrimEmptyOfGetD (raw : Option String) (h : jsTrim (raw.getD "") = "") :
    (jsTrim (raw.getD "")).isEmpty = true := by
  rw [h]; rfl

/-! ## Claim C10 -/

/-- C10: a request whose question field is absent or any falsy JSON value
(in particular the empty string) is rejected by both the basic and the clear
endpoint with a 400 client error carrying the message "missing question",
and the result does not depend on the generation outcome, so no prompt is
built and no external call is consulted. -/
theorem falsyQuestionRejected (req : ThreeCardRequest) (gen : GenOutcome)
    (h : req.question = none ∨ ∃ q, req.question = some q ∧ jsFalsy q = true) :
    handlerBasic req gen = .badRequest (some "missing question")
    ∧ handlerClear req gen = .badRequest (some "missing question") := by
  obtain h | ⟨q, hq, hf⟩ := h
  · constructor <;> simp [handlerBasic, handlerClear, h]
  · constructor <;> simp [handlerBasic, handlerClear, hq, hf]

/-- Witness for C10: the empty-string question at a concrete request. -/
theorem falsyQuestionRejectedWitness :
    handlerBasic ⟨some (.str ""), none, none, none⟩ .failed
        = .badRequest (some "missing question")
    ∧ handlerClear ⟨some (.str ""), none, none, none⟩ .failed
        = .badRequest (some "missing question") :=
  falsyQuestionRejected ⟨some (.str ""), none, none, none⟩ .failed
    (Or.inr ⟨.str "", rfl, rfl⟩)

/-! ## Claim C5 -/

/-- C5: whenever the pipeline fails after the boundary checks, either because
the generation call itself threw (GENERATION_SERVICE_FAILED) or because the
extracted text failed to parse (EMPTY_MODEL_OUTPUT or JSON_PARSE_FAILED),
both first-revision handlers answer with the fallback envelope built from
the verbatim request cards, returned as a normal JSON response.  The
validation stage of the specification does not exist in the source, so a
SCHEMA_VALIDATION_FAILED failure cannot arise; every failure that can arise
is recovered locally. -/
theorem pipelineFailureRecoveredByFallback
    (req : ThreeCardRequest) (gen : GenOutcome) (q : Json) (cards branches : List Json)
    (hq : req.question = some q) (hf : jsFalsy q = false)
    (hm : req.mainCards = some (.arr cards)) (hm3 : cards.length = 3)
    (hb : req.branchCards = some (.arr branches)) (hb9 : branches.length = 9)
    (hfail : gen = .failed
      ∨ ∃ r e, gen = .ok r ∧ parseModelJSON (some (extractText r)) = .error e) :
    handlerBasic req gen = .okJson (fallbackBasicResponse q req.context cards)
    ∧ handlerClear req gen = .okJson (fallbackClearResponse q req.context cards branches) := by
  obtain rfl | ⟨r, e, rfl, he⟩ := hfail
  · exact ⟨by simp [handlerBasic, hq, hf, hm, hm3],
           by simp [handlerClear, hq, hf, hm, hm3, hb, hb9]⟩
  · exact ⟨by simp [handlerBasic, hq, hf, hm, hm3, he],
           by simp [handlerClear, hq, hf, hm, hm3, hb, hb9, he]⟩

/-- Witness for C5: the end-to-end scenario of spec section 8 (question
要不要換工作？, cards 力量, 星星, 寶劍二) with the generation stage forced to
fail yields exactly the fixed fallback envelopes. -/
theorem pipelineFailureRecoveredByFallbackWitness :
    handlerBasic
        ⟨some (.str "要不要換工作？"), none,
         some (.arr [.str "力量", .str "星星", .str "寶劍二"]),
         some (.arr [.str "b1", .str "b2", .str "b3", .str "b4", .str "b5",
                     .str "b6", .str "b7", .str "b8", .str "b9"])⟩ .failed
      = .okJson (fallbackBasicResponse (.str "要不要換工作？") none
          [.str "力量", .str "星星", .str "寶劍二"])
    ∧ handlerClear
        ⟨some (.str "要不要換工作？"), none,
         some (.arr [.str "力量", .str "星星", .str "寶劍二"]),
         some (.arr [.str "b1", .str "b2", .str "b3", .str "b4", .str "b5",
                     .str "b6", .str "b7", .str "b8", .str "b9"])⟩ .failed
      = .okJson (fallbackClearResponse (.str "要不要換工作？") none
          [.str "力量", .str "星星", .str "寶劍二"]
          [.str "b1", .str "b2", .str "b3", .str "b4", .str "b5",
           .str "b6", .str "b7", .str "b8", .str "b9"]) :=
  pipelineFailureRecoveredByFallback _ .failed _ _ _ rfl rfl rfl rfl rfl rfl (Or.inl rfl)

/-! ## Claim C6 -/

/-- C6: the tolerant parser fails with EMPTY_MODEL_OUTPUT exactly when the
trimmed text is empty (so a whitespace-only extraction can produce no other
outcome, in particular not JSON_PARSE_FAILED and not an uncontrolled throw),
and on any text with non-whitespace content it proceeds to the single parse
attempt on the trimmed text. -/
theorem parseModelJSONEmptyClassification (raw : Option String) :
    (parseModelJSON raw = .error .emptyModelOutput ↔ jsTrim (raw.getD "") = "")
    ∧ (jsTrim (raw.getD "") ≠ "" →
        parseModelJSON raw =
          match jsonParse (jsTrim (raw.getD "")) with
          | some v => .ok v
          | none => .error (.jsonParseFailed (jsSlice (jsTrim (raw.getD "")) 300))) := by
  rw [parseModelJSON]
  by_cases h : jsTrim (raw.getD "") = ""
  · rw [if_pos (by rw [h]; rfl)]
    exact ⟨⟨fun _ => h, fun _ => rfl⟩, fun hne => absurd h hne⟩
  · rw [if_neg (by rw [String.isEmpty_iff]; exact h)]
    refine ⟨⟨fun hc => ?_, fun hc => absurd hc h⟩, fun _ => rfl⟩
    rcases hj : jsonParse (jsTrim (raw.getD "")) with _ | v <;> rw [hj] at hc <;>
      simp at hc

/-- Witness for C6: whitespace-only text fails with EMPTY_MODEL_OUTPUT, and
non-whitespace unparseable text proceeds to the parse attempt and fails with
JSON_PARSE_FAILED instead. -/
theorem parseModelJSONEmptyClassificationWitness :
    parseModelJSON (some " \n \t ") = .error .emptyModelOutput
    ∧ parseModelJSON (some " hello ") = .error (.jsonParseFailed "hello") :=
  ⟨(parseModelJSONEmptyClassification (some " \n \t ")).1.mpr rfl,
   ((parseModelJSONEmptyClassification (some " hello ")).2 (by decide)).trans rfl⟩

/-! ## Claim C4 -/

/-- Counterexample for C4: the first-revision fallback generator, applied to
a request whose supplied context is the empty string, returns an envelope
whose context field is the empty string, not null, because the source
coalesces only nullish contexts (context ?? null, src/index.js line 197). -/
theorem fallbackContextKeepsEmptyString :
    jsonGet (fallbackBasicResponse (.str "q") (some (.str ""))
        [.str "a", .str "b", .str "c"]) "context" = some (.str "")
    ∧ Json.str "" ≠ Json.null :=
  ⟨rfl, fun h => Json.noConfusion h⟩

/-- C4 as amended: in the second revision, whose fallbacks route the context
through normalizeContext (src/index.js lines 347-350), an absent, empty or
whitespace-only context always yields a null context field; the first
revision guarantees this only for an absent context. -/
theorem normalizedFallbackContextNull (q : Json) (m b : List Json) (c : Option String)
    (h : jsTrim (c.getD "") = "") :
    jsonGet (fallbackBasicResponseV2 q c m) "context" = some .null
    ∧ jsonGet (fallbackClearResponseV2 q c m b) "context" = some .null
    ∧ jsonGet (fallbackBasicResponse q none m) "context" = some .null := by
  have hn : normalizeContext c = none := by
    rw [normalizeContext]
    simp [h]
  refine ⟨?_, ?_, rfl⟩ <;>
    simp [fallbackBasicResponseV2, fallbackClearResponseV2, jsonGet, List.lookup, hn,
      contextValue]

/-- Witness for C4 as amended: the whitespace-only context at concrete
arguments. -/
theorem normalizedFallbackContextNullWitness :
    jsonGet (fallbackBasicResponseV2 (.str "q") (some " ") [.str "a", .str "b", .str "c"])
        "context" = some .null
    ∧ jsonGet (fallbackClearResponseV2 (.str "q") (some " ") [.str "a", .str "b", .str "c"]
        [.str "1", .str "2", .str "3", .str "4", .str "5", .str "6", .str "7", .str "8",
         .str "9"]) "context" = some .null
    ∧ jsonGet (fallbackBasicResponse (.str "q") none [.str "a", .str "b", .str "c"])
        "context" = some .null :=
  normalizedFallbackContextNull (.str "q") [.str "a", .str "b", .str "c"]
    [.str "1", .str "2", .str "3", .str "4", .str "5", .str "6", .str "7", .str "8", .str "9"]
    (some " ") rfl

/-! ## Claim C2 -/

/-- Counterexample for C2: a parsed value that is structurally non-conformant
to the basic schema is returned by the basic handler as a normal success
response; no validation stage exists between parsing and res.json
(src/index.js lines 277-281). -/
theorem nonconformantValueReturnedAsSuccess :
    handlerBasic
        ⟨some (.str "q"), none, some (.arr [.str "a", .str "b", .str "c"]), none⟩
        (.ok ⟨some "\x7b\"a\":1\x7d", none⟩)
      = .okJson (.obj [("a", .num 1)])
    ∧ validBasicV2Schema (.obj [("a", .num 1)]) = false :=
  ⟨rfl, rfl⟩

/-- C2 as amended: the handlers perform no structural validation; every value
the tolerant parser accepts is returned unchanged as the success response,
whether or not it conforms to the schema of the requested variant, and no
SCHEMA_VALIDATION_FAILED condition exists in the source.  Schema conformance
is only requested from the generation service itself (the strict schema
declarations, src/index.js lines 369-438). -/
theorem successResponseIsUnvalidatedParse
    (req : ThreeCardRequest) (reply : RawReply) (q : Json) (cards : List Json) (v : Json)
    (hq : req.question = some q) (hf : jsFalsy q = false)
    (hm : req.mainCards = some (.arr cards)) (hm3 : cards.length = 3)
    (hp : parseModelJSON (some (extractText reply)) = .ok v) :
    handlerBasic req (.ok reply) = .okJson v := by
  simp [handlerBasic, hq, hf, hm, hm3, hp]

/-- Witness for C2 as amended: the non-conformant object of the
counterexample input flows through the basic handler unvalidated. -/
theorem successResponseIsUnvalidatedParseWitness :
    handlerBasic
        ⟨some (.str "q2"), none, some (.arr [.str "a", .str "b", .str "c"]), none⟩
        (.ok ⟨some "\x7b\"b\":2\x7d", none⟩)
      = .okJson (.obj [("b", .num 2)]) :=
  successResponseIsUnvalidatedParse
    ⟨some (.str "q2"), none, some (.arr [.str "a", .str "b", .str "c"]), none⟩
    ⟨some "\x7b\"b\":2\x7d", none⟩ (.str "q2") [.str "a", .str "b", .str "c"]
    (.obj [("b", .num 2)]) rfl rfl rfl rfl rfl

/-! ## Claim C1 -/

/-- Counterexample for C1: on the generation path the endpoint returns
whatever parsed, so a valid request can be answered with an envelope that
violates every section-3 invariant (here an object with no directions at
all). -/
theorem generationPathViolatesSec3 :
    handlerBasic
        ⟨some (.str "q"), none, some (.arr [.str "x", .str "y", .str "z"]), none⟩
        (.ok ⟨some "\x7b\"ok\":true\x7d", none⟩)
      = .okJson (.obj [("ok", .bool true)])
    ∧ specSec3Basic ["x", "y", "z"] (.obj [("ok", .bool true)]) = false :=
  ⟨rfl, rfl⟩

/-- C1 as amended: the fallback-path envelopes satisfy the section-3
structural invariants by construction, for every request with 3 main and 9
branch text labels: exactly 3 directions with ids A, B, C in order, exactly
3 branches per direction with ids composed from the main id and positions
1 to 3 in source order, and every cardText equal, character for character,
to the corresponding input label.  The generation path (see the
counterexample) satisfies them only when the model output happens to. -/
theorem fallbackSatisfiesSec3 (q : Json) (c : Option Json) (m b : List String)
    (hm : m.length = 3) (hb : b.length = 9) :
    specSec3Basic m (fallbackBasicResponse q c (m.map .str)) = true
    ∧ specSec3Clear m b (fallbackClearResponse q c (m.map .str) (b.map .str)) = true := by
  obtain ⟨m0, m1, m2, rfl⟩ : ∃ x0 x1 x2, m = [x0, x1, x2] := by
    match m, hm with
    | [x0, x1, x2], _ => exact ⟨x0, x1, x2, rfl⟩
  obtain ⟨l0, l1, l2, l3, l4, l5, l6, l7, l8, rfl⟩ :
      ∃ y0 y1 y2 y3 y4 y5 y6 y7 y8, b = [y0, y1, y2, y3, y4, y5, y6, y7, y8] := by
    match b, hb with
    | [y0, y1, y2, y3, y4, y5, y6, y7, y8], _ =>
      exact ⟨y0, y1, y2, y3, y4, y5, y6, y7, y8, rfl⟩
  constructor <;>
    simp [specSec3Basic, specSec3Clear, fallbackBasicResponse, fallbackClearResponse,
      specDirectionOk, specDirectionClearOk, specBranchOk, jsonGet, List.lookup]

/-- Witness for C1 as amended: the envelope built by each fallback generator
for the concrete cards of the section-8 scenario passes the section-3
structural check. -/
theorem fallbackSatisfiesSec3Witness :
    specSec3Basic ["力量", "星星", "寶劍二"]
        (fallbackBasicResponse (.str "要不要換工作？") none
          [.str "力量", .str "星星", .str "寶劍二"]) = true
    ∧ specSec3Clear ["力量", "星星", "寶劍二"]
        ["b1", "b2", "b3", "b4", "b5", "b6", "b7", "b8", "b9"]
        (fallbackClearResponse (.str "要不要換工作？") none
          [.str "力量", .str "星星", .str "寶劍二"]
          [.str "b1", .str "b2", .str "b3", .str "b4", .str "b5", .str "b6", .str "b7",
           .str "b8", .str "b9"]) = true :=
  fallbackSatisfiesSec3 (.str "要不要換工作？") none ["力量", "星星", "寶劍二"]
    ["b1", "b2", "b3", "b4", "b5", "b6", "b7", "b8", "b9"] rfl rfl

/-! ## Claim C3 -/

/-- Counterexample for C3: on the input with leading and trailing commentary
the source parser does not carve the braced substring; the one direct parse
attempt fails and parseModelJSON throws JSON_PARSE_FAILED (carrying the
text itself as the bounded preview), instead of returning the object. -/
theorem noisyInputFailsWithoutCarving :
    parseModelJSON (some "Sure, here is the result:\n\x7b\"a\":1\x7d\nThanks!")
      = .error (.jsonParseFailed "Sure, here is the result:\n\x7b\"a\":1\x7d\nThanks!") :=
  rfl

/-- C3 as amended: the parser makes exactly one direct parse attempt on the
trimmed text and fails with JSON_PARSE_FAILED (with a 300-character preview)
whenever that attempt fails; no brace-carving retry exists in any source
revision.  The second and third conjuncts show that the carve described by
the specification would have recovered the object on the claimed input, so
the failure is due to the missing step, not to the input. -/
theorem parseModelJSONSingleAttempt :
    (∀ s : String, jsTrim s ≠ "" → jsonParse (jsTrim s) = none →
      parseModelJSON (some s) = .error (.jsonParseFailed (jsSlice (jsTrim s) 300)))
    ∧ specBraceCarve "Sure, here is the result:\n\x7b\"a\":1\x7d\nThanks!"
        = some "\x7b\"a\":1\x7d"
    ∧ jsonParse "\x7b\"a\":1\x7d" = some (.obj [("a", .num 1)]) := by
  refine ⟨?_, rfl, rfl⟩
  intro s hne hp
  rw [parseModelJSON]
  simp only [Option.getD]
  rw [if_neg (by rw [String.isEmpty_iff]; exact hne), hp]

/-- Witness for C3 as amended: a concrete unparseable text fails with
JSON_PARSE_FAILED after the single attempt. -/
theorem parseModelJSONSingleAttemptWitness :
    parseModelJSON (some "not json") = .error (.jsonParseFailed "not json") :=
  (parseModelJSONSingleAttempt.1 "not json" (by decide) rfl).trans rfl

/-! ## Claim C8 -/

/-- Counterexample for C8: a strict-schema reply whose only content block
carries an already-parsed object and no text does not short-circuit
extraction; extractText returns the empty string, and the second-revision
clear handler routes the (empty) text through the parser, fails, and answers
with the fallback envelope, in which the marker key of the parsed object
does not occur — the parsed object is never returned. -/
theorem parsedObjectNotReturned :
    extractText ⟨none, some [⟨some [⟨none, some (.obj [("marker", .str "m")])⟩]⟩]⟩ = ""
    ∧ handlerClearV2
        ⟨some (.str "q"), none, some (.arr [.str "x", .str "y", .str "z"]),
         some (.arr [.str "1", .str "2", .str "3", .str "4", .str "5", .str "6", .str "7",
                     .str "8", .str "9"])⟩
        (.ok ⟨none, some [⟨some [⟨none, some (.obj [("marker", .str "m")])⟩]⟩]⟩)
      = .okJson (fallbackClearResponseV2 (.str "q") none
          [.str "x", .str "y", .str "z"]
          [.str "1", .str "2", .str "3", .str "4", .str "5", .str "6", .str "7", .str "8",
           .str "9"])
    ∧ jsonGet (fallbackClearResponseV2 (.str "q") none
          [.str "x", .str "y", .str "z"]
          [.str "1", .str "2", .str "3", .str "4", .str "5", .str "6", .str "7", .str "8",
           .str "9"]) "marker" = none :=
  ⟨rfl, rfl, rfl⟩

/-! ## Extraction lemmas -/

theorem blocksFoldl (content : List ContentBlock) (acc : List String) :
    content.foldl (fun acc2 c =>
      match c.text with
      | some t => if t.length > 0 then acc2 ++ [t] else acc2
      | none => acc2) acc = acc ++ content.filterMap usableText := by
  induction content generalizing acc with
  | nil => simp
  | cons c t ih =>
    rcases c with ⟨ct, cp⟩
    rcases ct with _ | tx
    · simp only [List.foldl, List.filterMap]
      rw [ih]
      simp [usableText]
    · by_cases h : tx = ""
      · subst h
        simp only [List.foldl]
        rw [ih]
        simp [usableText]
      · simp only [List.foldl]
        rw [if_pos ((strLengthPos tx).mpr h), ih]
        simp [usableText, h]

theorem itemsFoldl (items : List OutputItem) (acc : List String) :
    items.foldl (fun acc1 item =>
      match item.content with
      | some content =>
        content.foldl (fun acc2 c =>
          match c.text with
          | some t => if t.length > 0 then acc2 ++ [t] else acc2
          | none => acc2) acc1
      | none => acc1) acc
    = acc ++ (items.map (fun it => (it.content.getD []).filterMap usableText)).flatten := by
  induction items generalizing acc with
  | nil => simp
  | cons it t ih =>
    rcases it with ⟨ct⟩
    rcases ct with _ | content
    · simp only [List.foldl]
      rw [ih]
      simp
    · simp only [List.foldl]
      rw [blocksFoldl, ih]
      simp

theorem collectChunksEqSpec (out : Option (List OutputItem)) :
    collectChunks out = specContentTexts out := by
  rcases out with _ | items
  · rfl
  · rw [collectChunks, specContentTexts, itemsFoldl]
    simp

theorem joinIfLength (l : List String) :
    (if l.length > 0 then String.join l else "") = String.join l := by
  cases l
  · rfl
  · simp

/-! ## Claim C7 -/

/-- C7: the extractor is a total function whose value is fully described by
the specification of section 4.3: the top-level convenience text when it is
a non-empty string, otherwise the concatenation in list order of the texts
carried by the content blocks (blocks without usable text skipped), and the
empty string when nothing textual is found.  Totality and freedom from side
effects hold by construction of the embedding, mirroring the optional
chaining of the source. -/
theorem extractTextMatchesSpec (resp : RawReply) :
    extractText resp = specExtractText resp := by
  rcases resp with ⟨ot, out⟩
  rcases ot with _ | s
  · simp only [extractText, specExtractText]
    rw [joinIfLength, collectChunksEqSpec]
  · by_cases h : s = ""
    · subst h
      simp only [extractText, specExtractText]
      simp only [String.length, List.length_nil, gt_iff_lt, Nat.lt_irrefl, if_false,
        ne_eq, not_true_eq_false, if_true]
      rw [joinIfLength, collectChunksEqSpec]
    · simp only [extractText, specExtractText]
      rw [if_pos ((strLengthPos s).mpr h), if_pos h]

/-! ## Claim C8, amended -/

theorem blocksFoldlErase (content : List ContentBlock) (acc : List String) :
    (content.map (fun c => ContentBlock.mk c.text none)).foldl (fun acc2 c =>
      match c.text with
      | some t => if t.length > 0 then acc2 ++ [t] else acc2
      | none => acc2) acc
    = content.foldl (fun acc2 c =>
      match c.text with
      | some t => if t.length > 0 then acc2 ++ [t] else acc2
      | none => acc2) acc := by
  induction content generalizing acc with
  | nil => rfl
  | cons c t ih => simp only [List.map, List.foldl]; rw [ih]

theorem itemsFoldlErase (items : List OutputItem) (acc : List String) :
    (items.map (fun item =>
      OutputItem.mk (item.content.map (List.map (fun c => ContentBlock.mk c.text none))))).foldl
      (fun acc1 item =>
        match item.content with
        | some content =>
          content.foldl (fun acc2 c =>
            match c.text with
            | some t => if t.length > 0 then acc2 ++ [t] else acc2
            | none => acc2) acc1
        | none => acc1) acc
    = items.foldl (fun acc1 item =>
        match item.content with
        | some content =>
          content.foldl (fun acc2 c =>
            match c.text with
            | some t => if t.length > 0 then acc2 ++ [t] else acc2
            | none => acc2) acc1
        | none => acc1) acc := by
  induction items generalizing acc with
  | nil => rfl
  | cons it t ih =>
    rcases it with ⟨ct⟩
    rcases ct with _ | content
    · simp only [List.map, List.foldl, Option.map]
      exact ih _
    · simp only [List.map, List.foldl, Option.map]
      rw [blocksFoldlErase]
      exact ih _

/-- C8 as amended: extraction never consults the parsed objects carried by
content blocks; erasing every parsed object from a reply leaves the
extracted text unchanged and in particular extraction never returns such an
object, so the text-parsing stage is reached on exactly the same inputs (the
counterexample shows the strict-schema handler then routing the text through
the parser and falling back rather than returning the object). -/
theorem extractTextIgnoresParsed (resp : RawReply) :
    extractText (eraseParsed resp) = extractText resp := by
  rcases resp with ⟨ot, out⟩
  have hc : collectChunks (eraseParsed ⟨ot, out⟩).output = collectChunks out := by
    rw [eraseParsed]
    rcases out with _ | items
    · rfl
    · rw [Option.map_some']
      rw [collectChunks, collectChunks, itemsFoldlErase]
  rcases ot with _ | st
  · simp only [extractText, eraseParsed] at hc ⊢
    rw [hc]
  · simp only [extractText, eraseParsed] at hc ⊢
    rw [hc]

/-! ## Round-trip lemmas: strings -/

theorem skipWsCons (c : Char) (l : List Char) (h : isJsonWs c = false) :
    skipWs (c :: l) = c :: l := by
  simp [skipWs, List.dropWhile, h]

theorem hexValHexDigitChar (n : Nat) (h : n < 16) : hexVal (hexDigitChar n) = some n := by
  interval_cases n <;> decide

theorem charOfNatToNat (c : Char) (h : c.toNat < 32) : Char.ofNat c.toNat = c := by
  have hv : Nat.isValidChar c.toNat := Or.inl (by omega)
  apply Char.ext
  rw [Char.ofNat, dif_pos hv]
  apply UInt32.ext
  rw [Char.ofNatAux]
  exact BitVec.toNat_ofNatLt _ _

theorem escRoundTrip (l : List Char) (rest : List Char) :
    parseStringChars (escapeList l ++ '"' :: rest) = some (l, rest) := by
  induction l with
  | nil =>
    show parseStringChars ([] ++ '"' :: rest) = some ([], rest)
    rw [List.nil_append, parseStringChars.eq_def]
    simp
  | cons c t ih =>
    have hsplit : escapeList (c :: t) ++ '"' :: rest
        = escChar c ++ (escapeList t ++ '"' :: rest) := by
      simp [escapeList, List.foldr]
    rw [hsplit]
    by_cases h1 : c = '"'
    · subst h1
      have hesc : escChar '"' = ['\\', '"'] := by simp [escChar]
      rw [hesc]
      rw [parseStringChars.eq_def]
      simp [consScan, ih]
    · by_cases h2 : c = '\\'
      · subst h2
        have hesc : escChar '\\' = ['\\', '\\'] := by simp [escChar]
        rw [hesc]
        rw [parseStringChars.eq_def]
        simp [consScan, ih]
      · by_cases h3 : c = '\n'
        · subst h3
          have hesc : escChar '\n' = ['\\', 'n'] := by simp [escChar]
          rw [hesc]
          rw [parseStringChars.eq_def]
          simp [consScan, ih]
        · by_cases h4 : c = '\r'
          · subst h4
            have hesc : escChar '\r' = ['\\', 'r'] := by simp [escChar]
            rw [hesc]
            rw [parseStringChars.eq_def]
            simp [consScan, ih]
          · by_cases h5 : c = '\t'
            · subst h5
              have hesc : escChar '\t' = ['\\', 't'] := by simp [escChar]
              rw [hesc]
              rw [parseStringChars.eq_def]
              simp [consScan, ih]
            · by_cases h6 : c = '\x08'
              · subst h6
                have hesc : escChar '\x08' = ['\\', 'b'] := by simp [escChar]
                rw [hesc]
                rw [parseStringChars.eq_def]
                simp [consScan, ih]
              · by_cases h7 : c = '\x0c'
                · subst h7
                  have hesc : escChar '\x0c' = ['\\', 'f'] := by simp [escChar]
                  rw [hesc]
                  rw [parseStringChars.eq_def]
                  simp [consScan, ih]
                · by_cases h8 : c.toNat < 32
                  · have hesc : escChar c = ['\\', 'u', '0', '0',
                        hexDigitChar (c.toNat / 16), hexDigitChar (c.toNat % 16)] := by
                      simp [escChar, h1, h2, h3, h4, h5, h6, h7, h8]
                    rw [hesc]
                    have hhi : hexVal (hexDigitChar (c.toNat / 16)) = some (c.toNat / 16) :=
                      hexValHexDigitChar _ (by omega)
                    have hlo : hexVal (hexDigitChar (c.toNat % 16)) = some (c.toNat % 16) :=
                      hexValHexDigitChar _ (by omega)
                    rw [parseStringChars.eq_def]
                    simp only [List.cons_append, List.nil_append]
                    simp [hhi, hlo, consScan, ih]
                    rw [show hexVal '0' = some 0 from rfl]
                    simp only []
                    rw [show ((0 * 16 + 0) * 16 + c.toNat / 16) * 16 + c.toNat % 16
                        = c.toNat from by omega]
                    rw [charOfNatToNat c h8]
                  · have hesc : escChar c = [c] := by
                      simp [escChar, h1, h2, h3, h4, h5, h6, h7, h8]
                    rw [hesc]
                    show parseStringChars (c :: (escapeList t ++ '"' :: rest))
                        = some (c :: t, rest)
                    rw [parseStringChars.eq_def]
                    simp only []
                    rw [if_neg h1, if_neg h2, if_neg h8, ih]
                    rfl

/-! ## Round-trip lemmas: values -/

theorem stringMkData (s : String) : String.mk s.data = s := by cases s; rfl

theorem encodeHead (j : Json) (h : numFree j = true) :
    ∃ c t, encode j = c :: t ∧ isJsonWs c = false ∧ c ≠ ']' := by
  cases j with
  | null => exact ⟨'n', ['u', 'l', 'l'], by rw [encode], by decide, by decide⟩
  | bool b =>
    cases b
    · exact ⟨'f', ['a', 'l', 's', 'e'], by rw [encode], by decide, by decide⟩
    · exact ⟨'t', ['r', 'u', 'e'], by rw [encode], by decide, by decide⟩
  | num n => rw [numFree] at h; exact absurd h (by decide)
  | str s =>
    refine ⟨'"', escapeList s.data ++ ['"'], ?_, by decide, by decide⟩
    rw [encode, encodeStringChars]
    exact List.cons_append _ _ _
  | arr xs =>
    refine ⟨'[', encodeItems xs ++ [']'], ?_, by decide, by decide⟩
    rw [encode]
    exact List.cons_append _ _ _
  | obj ms =>
    refine ⟨'{', encodeMembers ms ++ ['}'], ?_, by decide, by decide⟩
    rw [encode]
    exact List.cons_append _ _ _

theorem parseEncodeAux : ∀ n : Nat,
    (∀ j : Json, sizeOf j ≤ n → numFree j = true →
      ∀ fuel rest, (encode j).length < fuel →
        parseValue fuel (encode j ++ rest) = some (j, rest))
    ∧ (∀ xs : List Json, sizeOf xs ≤ n → numFree (.arr xs) = true → xs ≠ [] →
      ∀ fuel rest, (encodeItems xs).length + 1 < fuel →
        parseItems fuel (encodeItems xs ++ ']' :: rest) = some (xs, rest))
    ∧ (∀ ms : List (String × Json), sizeOf ms ≤ n → numFree (.obj ms) = true → ms ≠ [] →
      ∀ fuel rest, (encodeMembers ms).length + 1 < fuel →
        parseMembers fuel (encodeMembers ms ++ '}' :: rest) = some (ms, rest)) := by
  intro n
  induction n with
  | zero =>
    refine ⟨fun j hj => absurd hj ?_, fun xs hx => absurd hx ?_, fun ms hm => absurd hm ?_⟩
    · cases j <;> simp
    · cases xs <;> simp
    · cases ms <;> simp
  | succ n ih =>
    obtain ⟨ihv, ihi, ihm⟩ := ih
    refine ⟨?_, ?_, ?_⟩
    · -- values
      intro j hsz hnf fuel rest hfuel
      obtain ⟨f, rfl⟩ : ∃ f, fuel = f + 1 := ⟨fuel - 1, by omega⟩
      cases j with
      | null =>
        rw [encode]
        show parseValue (f + 1) ('n' :: 'u' :: 'l' :: 'l' :: rest) = some (.null, rest)
        simp [parseValue, skipWs, List.dropWhile, isJsonWs]
      | bool b =>
        cases b
        · rw [encode]
          show parseValue (f + 1) ('f' :: 'a' :: 'l' :: 's' :: 'e' :: rest)
              = some (.bool false, rest)
          simp [parseValue, skipWs, List.dropWhile, isJsonWs]
        · rw [encode]
          show parseValue (f + 1) ('t' :: 'r' :: 'u' :: 'e' :: rest) = some (.bool true, rest)
          simp [parseValue, skipWs, List.dropWhile, isJsonWs]
      | num m => rw [numFree] at hnf; exact absurd hnf (by decide)
      | str s =>
        rw [encode, encodeStringChars]
        rw [show (('"' :: escapeList s.data) ++ ['"']) ++ rest
            = '"' :: (escapeList s.data ++ '"' :: rest) from by simp]
        simp [parseValue, skipWs, List.dropWhile, isJsonWs, escRoundTrip, stringMkData]
      | arr xs =>
        cases xs with
        | nil =>
          rw [encode, encodeItems]
          show parseValue (f + 1) ('[' :: ']' :: rest) = some (.arr [], rest)
          simp [parseValue, skipWs, List.dropWhile, isJsonWs]
        | cons x xs =>
          rw [encode]
          rw [show (('[' :: encodeItems (x :: xs)) ++ [']']) ++ rest
              = '[' :: (encodeItems (x :: xs) ++ ']' :: rest) from by simp]
          have hnfx : numFree x = true ∧ numFree (.arr xs) = true := by
            rw [numFree] at hnf
            exact ⟨(Bool.and_eq_true_iff.mp hnf).1, (Bool.and_eq_true_iff.mp hnf).2⟩
          obtain ⟨c, t, hct, hcw, hcb⟩ := encodeHead x hnfx.1
          have ht2 : ∃ t2, encodeItems (x :: xs) ++ ']' :: rest = c :: t2 := by
            cases xs with
            | nil => exact ⟨t ++ ']' :: rest, by rw [encodeItems, hct]; simp⟩
            | cons y ys =>
              exact ⟨t ++ ',' :: encodeItems (y :: ys) ++ ']' :: rest,
                by rw [encodeItems, hct]; simp⟩
          obtain ⟨t2, ht2⟩ := ht2
          have hlen : (encode (.arr (x :: xs))).length
              = (encodeItems (x :: xs)).length + 2 := by
            rw [encode]; simp
          have hb : (encodeItems (x :: xs)).length + 1 < f := by
            rw [hlen] at hfuel; omega
          have hrec : parseItems f (c :: t2) = some (x :: xs, rest) := by
            rw [← ht2]
            apply ihi (x :: xs) ?_ hnf (by simp) f rest hb
            have : sizeOf (Json.arr (x :: xs)) = 1 + sizeOf (x :: xs) := by simp
            omega
          have hsk1 : skipWs (c :: t2) = c :: t2 := skipWsCons _ _ hcw
          rw [ht2]
          simp only [parseValue]
          rw [skipWsCons '[' (c :: t2) (by decide)]
          simp only [hsk1]
          split
          · rename_i r2 heq
            rw [List.cons.injEq] at heq
            exact absurd heq.1 hcb
          · rw [hrec]
      | obj ms =>
        cases ms with
        | nil =>
          rw [encode, encodeMembers]
          show parseValue (f + 1) ('{' :: '}' :: rest) = some (.obj [], rest)
          simp [parseValue, skipWs, List.dropWhile, isJsonWs]
        | cons m ms =>
          rw [encode]
          rw [show (('{' :: encodeMembers (m :: ms)) ++ ['}']) ++ rest
              = '{' :: (encodeMembers (m :: ms) ++ '}' :: rest) from by simp]
          have ht2 : ∃ t2, encodeMembers (m :: ms) ++ '}' :: rest = '"' :: t2 := by
            obtain ⟨k, v⟩ := m
            cases ms with
            | nil =>
              exact ⟨escapeList k.data ++ '"' :: ':' :: encode v ++ '}' :: rest,
                by rw [encodeMembers, encodeStringChars]; simp⟩
            | cons m2 ms2 =>
              exact ⟨escapeList k.data
                  ++ '"' :: ':' :: encode v ++ ',' :: encodeMembers (m2 :: ms2) ++ '}' :: rest,
                by rw [encodeMembers, encodeStringChars]; simp⟩
          obtain ⟨t2, ht2⟩ := ht2
          have hlen : (encode (.obj (m :: ms))).length
              = (encodeMembers (m :: ms)).length + 2 := by
            rw [encode]; simp
          have hb : (encodeMembers (m :: ms)).length + 1 < f := by
            rw [hlen] at hfuel; omega
          have hrec : parseMembers f ('"' :: t2) = some (m :: ms, rest) := by
            rw [← ht2]
            apply ihm (m :: ms) ?_ hnf (by simp) f rest hb
            have : sizeOf (Json.obj (m :: ms)) = 1 + sizeOf (m :: ms) := by simp
            omega
          rw [ht2]
          simp only [parseValue]
          rw [skipWsCons '{' ('"' :: t2) (by decide)]
          simp only [skipWsCons '"' t2 (by decide)]
          split
          · rename_i r2 heq
            rw [List.cons.injEq] at heq
            exact absurd heq.1 (by decide)
          · rw [hrec]
    · -- items
      intro xs hsz hnf hne fuel rest hfuel
      obtain ⟨f, rfl⟩ : ∃ f, fuel = f + 1 := ⟨fuel - 1, by omega⟩
      cases xs with
      | nil => exact absurd rfl hne
      | cons x xs =>
        have hnfx : numFree x = true ∧ numFree (.arr xs) = true := by
          rw [numFree] at hnf
          exact ⟨(Bool.and_eq_true_iff.mp hnf).1, (Bool.and_eq_true_iff.mp hnf).2⟩
        have hszx : sizeOf x ≤ n := by
          have : sizeOf (x :: xs) = 1 + sizeOf x + sizeOf xs := by simp
          omega
        cases xs with
        | nil =>
          rw [encodeItems]
          have hbx : (encode x).length < f := by
            rw [encodeItems] at hfuel; omega
          have hv := ihv x hszx hnfx.1 f (']' :: rest) hbx
          have hsk : skipWs (']' :: rest) = ']' :: rest := skipWsCons _ _ (by decide)
          simp only [parseItems, hv, hsk]
        | cons y ys =>
          rw [encodeItems]
          rw [show (encode x ++ ',' :: encodeItems (y :: ys)) ++ ']' :: rest
              = encode x ++ ',' :: (encodeItems (y :: ys) ++ ']' :: rest) from by simp]
          have hlen : (encodeItems (x :: y :: ys)).length
              = (encode x).length + 1 + (encodeItems (y :: ys)).length := by
            rw [encodeItems]
            simp only [List.length_append, List.length_cons]
            omega
          have hbx : (encode x).length < f := by omega
          have hby : (encodeItems (y :: ys)).length + 1 < f := by omega
          have hszy : sizeOf (y :: ys) ≤ n := by
            have : sizeOf (x :: y :: ys) = 1 + sizeOf x + sizeOf (y :: ys) := by simp
            omega
          have hv := ihv x hszx hnfx.1 f (',' :: (encodeItems (y :: ys) ++ ']' :: rest)) hbx
          have hsk : skipWs (',' :: (encodeItems (y :: ys) ++ ']' :: rest))
              = ',' :: (encodeItems (y :: ys) ++ ']' :: rest) := skipWsCons _ _ (by decide)
          have hr := ihi (y :: ys) hszy hnfx.2 (by simp) f rest hby
          simp only [parseItems, hv, hsk, hr]
    · -- members
      intro ms hsz hnf hne fuel rest hfuel
      obtain ⟨f, rfl⟩ : ∃ f, fuel = f + 1 := ⟨fuel - 1, by omega⟩
      cases ms with
      | nil => exact absurd rfl hne
      | cons m ms =>
        obtain ⟨k, v⟩ := m
        have hnfv : numFree v = true ∧ numFree (.obj ms) = true := by
          rw [numFree] at hnf
          exact ⟨(Bool.and_eq_true_iff.mp hnf).1, (Bool.and_eq_true_iff.mp hnf).2⟩
        have hszv : sizeOf v ≤ n := by
          have h1 : sizeOf ((k, v) :: ms) = 1 + sizeOf (k, v) + sizeOf ms := by simp
          have h2 : sizeOf (k, v) = 1 + sizeOf k + sizeOf v := by simp
          omega
        cases ms with
        | nil =>
          rw [encodeMembers, encodeStringChars]
          rw [show ((('"' :: escapeList k.data) ++ ['"']) ++ ':' :: encode v) ++ '}' :: rest
              = '"' :: (escapeList k.data ++ '"' :: ':' :: (encode v ++ '}' :: rest))
              from by simp]
          have hbv : (encode v).length < f := by
            rw [encodeMembers, encodeStringChars] at hfuel
            simp only [List.length_append, List.cons_append, List.length_cons] at hfuel
            omega
          have hstr := escRoundTrip k.data (':' :: (encode v ++ '}' :: rest))
          have hsk1 : skipWs (':' :: (encode v ++ '}' :: rest))
              = ':' :: (encode v ++ '}' :: rest) := skipWsCons _ _ (by decide)
          have hv := ihv v hszv hnfv.1 f ('}' :: rest) hbv
          have hsk2 : skipWs ('}' :: rest) = '}' :: rest := skipWsCons _ _ (by decide)
          have hsk0 : skipWs ('"' :: (escapeList k.data ++ '"' :: ':' :: (encode v
              ++ '}' :: rest))) = '"' :: (escapeList k.data ++ '"' :: ':' :: (encode v
              ++ '}' :: rest)) := skipWsCons _ _ (by decide)
          simp only [parseMembers, hsk0, hstr, hsk1, hv, hsk2, stringMkData]
        | cons m2 ms2 =>
          rw [encodeMembers, encodeStringChars]
          rw [show ((('"' :: escapeList k.data) ++ ['"']) ++ ':' :: encode v
                ++ ',' :: encodeMembers (m2 :: ms2)) ++ '}' :: rest
              = '"' :: (escapeList k.data ++ '"' :: ':' :: (encode v
                ++ ',' :: (encodeMembers (m2 :: ms2) ++ '}' :: rest))) from by simp]
          have hlen : (encodeMembers ((k, v) :: m2 :: ms2)).length
              = (escapeList k.data).length + 4 + (encode v).length
                + (encodeMembers (m2 :: ms2)).length := by
            rw [encodeMembers, encodeStringChars]
            simp only [List.length_append, List.cons_append, List.length_cons,
              List.length_nil]
            omega
          have hbv : (encode v).length < f := by omega
          have hbm : (encodeMembers (m2 :: ms2)).length + 1 < f := by omega
          have hszm : sizeOf (m2 :: ms2) ≤ n := by
            have : sizeOf ((k, v) :: m2 :: ms2) = 1 + sizeOf (k, v) + sizeOf (m2 :: ms2) := by
              simp
            omega
          have hstr := escRoundTrip k.data (':' :: (encode v
              ++ ',' :: (encodeMembers (m2 :: ms2) ++ '}' :: rest)))
          have hsk1 : skipWs (':' :: (encode v ++ ',' :: (encodeMembers (m2 :: ms2)
              ++ '}' :: rest))) = ':' :: (encode v ++ ',' :: (encodeMembers (m2 :: ms2)
              ++ '}' :: rest)) := skipWsCons _ _ (by decide)
          have hv := ihv v hszv hnfv.1 f
            (',' :: (encodeMembers (m2 :: ms2) ++ '}' :: rest)) hbv
          have hsk2 : skipWs (',' :: (encodeMembers (m2 :: ms2) ++ '}' :: rest))
              = ',' :: (encodeMembers (m2 :: ms2) ++ '}' :: rest) := skipWsCons _ _ (by decide)
          have hr := ihm (m2 :: ms2) hszm hnfv.2 (by simp) f rest hbm
          have hsk0 : skipWs ('"' :: (escapeList k.data ++ '"' :: ':' :: (encode v
              ++ ',' :: (encodeMembers (m2 :: ms2) ++ '}' :: rest))))
              = '"' :: (escapeList k.data ++ '"' :: ':' :: (encode v
              ++ ',' :: (encodeMembers (m2 :: ms2) ++ '}' :: rest)))
              := skipWsCons _ _ (by decide)
          simp only [parseMembers, hsk0, hstr, hsk1, hv, hsk2, hr, stringMkData]

/-! ## Schema validity implies number-freedom -/

theorem numFreeArrOfAll (xs : List Json) (h : ∀ x ∈ xs, numFree x = true) :
    numFree (.arr xs) = true := by
  induction xs with
  | nil => rw [numFree]
  | cons x t ih =>
    rw [numFree]
    rw [h x (by simp), ih (fun y hy => h y (by simp [hy]))]
    rfl

theorem numFreeObjOfAll (ms : List (String × Json)) (h : ∀ kv ∈ ms, numFree kv.2 = true) :
    numFree (.obj ms) = true := by
  induction ms with
  | nil => rw [numFree]
  | cons kv t ih =>
    obtain ⟨a, v⟩ := kv
    rw [numFree]
    rw [h (a, v) (by simp), ih (fun y hy => h y (by simp [hy]))]
    rfl

theorem numFreeOfIsStr (j : Json) (h : isStrVal j = true) : numFree j = true := by
  cases j <;> simp_all [isStrVal, numFree]

theorem numFreeOfIsStrOrNull (j : Json) (h : isStrOrNull j = true) : numFree j = true := by
  cases j <;> simp_all [isStrOrNull, numFree]

theorem numFreeOfValidBranch (j : Json) (h : validBranchV2 j = true) : numFree j = true := by
  cases j with
  | obj ms =>
    refine numFreeObjOfAll ms ?_
    intro kv hkv
    rw [validBranchV2, Bool.and_eq_true_iff] at h
    have hall := h.1
    rw [List.all_eq_true] at hall
    have hc := hall kv hkv
    rw [Bool.and_eq_true_iff] at hc
    exact numFreeOfIsStr _ hc.2
  | null => simp [validBranchV2] at h
  | bool b => simp [validBranchV2] at h
  | num n => simp [validBranchV2] at h
  | str s => simp [validBranchV2] at h
  | arr xs => simp [validBranchV2] at h

theorem numFreeOfValidDirClear (j : Json) (h : validDirClearV2 j = true) :
    numFree j = true := by
  cases j with
  | obj ms =>
    refine numFreeObjOfAll ms ?_
    intro kv hkv
    rw [validDirClearV2, Bool.and_eq_true_iff] at h
    have hall := h.1
    rw [List.all_eq_true] at hall
    have hc := hall kv hkv
    obtain ⟨k, v⟩ := kv
    cases v with
    | null => rw [numFree]
    | bool b => rw [numFree]
    | str s => rw [numFree]
    | num m =>
      exfalso
      split at hc
      · exact Bool.noConfusion hc
      · split at hc
        · exact Bool.noConfusion hc
        · split at hc
          · exact Bool.noConfusion hc
          · exact Bool.noConfusion hc
    | obj o =>
      exfalso
      split at hc
      · exact Bool.noConfusion hc
      · split at hc
        · exact Bool.noConfusion hc
        · split at hc
          · exact Bool.noConfusion hc
          · exact Bool.noConfusion hc
    | arr bs =>
      split at hc
      · exact Bool.noConfusion hc
      · split at hc
        · exact Bool.noConfusion hc
        · split at hc
          · have hc2 : (bs.length == 3 && bs.all validBranchV2) = true := hc
            rw [Bool.and_eq_true_iff, List.all_eq_true] at hc2
            exact numFreeArrOfAll bs (fun b hb => numFreeOfValidBranch b (hc2.2 b hb))
          · exact Bool.noConfusion hc
  | null => simp [validDirClearV2] at h
  | bool b => simp [validDirClearV2] at h
  | num n => simp [validDirClearV2] at h
  | str s => simp [validDirClearV2] at h
  | arr xs => simp [validDirClearV2] at h

theorem numFreeOfValidDirBasic (j : Json) (h : validDirBasicV2 j = true) :
    numFree j = true := by
  cases j with
  | obj ms =>
    refine numFreeObjOfAll ms ?_
    intro kv hkv
    rw [validDirBasicV2, Bool.and_eq_true_iff] at h
    have hall := h.1
    rw [List.all_eq_true] at hall
    have hc := hall kv hkv
    obtain ⟨k, v⟩ := kv
    cases v with
    | null => rw [numFree]
    | bool b => rw [numFree]
    | str s => rw [numFree]
    | num m =>
      exfalso
      split at hc
      · exact Bool.noConfusion hc
      · split at hc
        · exact Bool.noConfusion hc
        · exact Bool.noConfusion hc
    | obj o =>
      exfalso
      split at hc
      · exact Bool.noConfusion hc
      · split at hc
        · exact Bool.noConfusion hc
        · exact Bool.noConfusion hc
    | arr bs =>
      exfalso
      split at hc
      · exact Bool.noConfusion hc
      · split at hc
        · exact Bool.noConfusion hc
        · exact Bool.noConfusion hc
  | null => simp [validDirBasicV2] at h
  | bool b => simp [validDirBasicV2] at h
  | num n => simp [validDirBasicV2] at h
  | str s => simp [validDirBasicV2] at h
  | arr xs => simp [validDirBasicV2] at h

theorem numFreeOfValidBasic (j : Json) (h : validBasicV2Schema j = true) :
    numFree j = true := by
  cases j with
  | obj ms =>
    refine numFreeObjOfAll ms ?_
    intro kv hkv
    rw [validBasicV2Schema, Bool.and_eq_true_iff] at h
    have hall := h.1
    rw [List.all_eq_true] at hall
    have hc := hall kv hkv
    obtain ⟨k, v⟩ := kv
    cases v with
    | null => rw [numFree]
    | bool b => rw [numFree]
    | str s => rw [numFree]
    | num m =>
      exfalso
      split at hc
      · exact Bool.noConfusion hc
      · split at hc
        · exact Bool.noConfusion hc
        · split at hc
          · exact Bool.noConfusion hc
          · split at hc
            · exact Bool.noConfusion hc
            · split at hc
              · exact Bool.noConfusion hc
              · exact Bool.noConfusion hc
    | obj o =>
      exfalso
      split at hc
      · exact Bool.noConfusion hc
      · split at hc
        · exact Bool.noConfusion hc
        · split at hc
          · exact Bool.noConfusion hc
          · split at hc
            · exact Bool.noConfusion hc
            · split at hc
              · exact Bool.noConfusion hc
              · exact Bool.noConfusion hc
    | arr ds =>
      split at hc
      · exact Bool.noConfusion hc
      · split at hc
        · exact Bool.noConfusion hc
        · split at hc
          · exact Bool.noConfusion hc
          · split at hc
            · exact Bool.noConfusion hc
            · split at hc
              · have hc2 : (ds.length == 3 && ds.all validDirBasicV2) = true := hc
                rw [Bool.and_eq_true_iff, List.all_eq_true] at hc2
                exact numFreeArrOfAll ds (fun d hd => numFreeOfValidDirBasic d (hc2.2 d hd))
              · exact Bool.noConfusion hc
  | null => simp [validBasicV2Schema] at h
  | bool b => simp [validBasicV2Schema] at h
  | num n => simp [validBasicV2Schema] at h
  | str s => simp [validBasicV2Schema] at h
  | arr xs => simp [validBasicV2Schema] at h

theorem numFreeOfValidClear (j : Json) (h : validClearV2Schema j = true) :
    numFree j = true := by
  cases j with
  | obj ms =>
    refine numFreeObjOfAll ms ?_
    intro kv hkv
    rw [validClearV2Schema, Bool.and_eq_true_iff] at h
    have hall := h.1
    rw [List.all_eq_true] at hall
    have hc := hall kv hkv
    obtain ⟨k, v⟩ := kv
    cases v with
    | null => rw [numFree]
    | bool b => rw [numFree]
    | str s => rw [numFree]
    | num m =>
      exfalso
      split at hc
      · exact Bool.noConfusion hc
      · split at hc
        · exact Bool.noConfusion hc
        · split at hc
          · exact Bool.noConfusion hc
          · split at hc
            · exact Bool.noConfusion hc
            · split at hc
              · exact Bool.noConfusion hc
              · exact Bool.noConfusion hc
    | obj o =>
      exfalso
      split at hc
      · exact Bool.noConfusion hc
      · split at hc
        · exact Bool.noConfusion hc
        · split at hc
          · exact Bool.noConfusion hc
          · split at hc
            · exact Bool.noConfusion hc
            · split at hc
              · exact Bool.noConfusion hc
              · exact Bool.noConfusion hc
    | arr ds =>
      split at hc
      · exact Bool.noConfusion hc
      · split at hc
        · exact Bool.noConfusion hc
        · split at hc
          · exact Bool.noConfusion hc
          · split at hc
            · exact Bool.noConfusion hc
            · split at hc
              · have hc2 : (ds.length == 3 && ds.all validDirClearV2) = true := hc
                rw [Bool.and_eq_true_iff, List.all_eq_true] at hc2
                exact numFreeArrOfAll ds (fun d hd => numFreeOfValidDirClear d (hc2.2 d hd))
              · exact Bool.noConfusion hc
  | null => simp [validClearV2Schema] at h
  | bool b => simp [validClearV2Schema] at h
  | num n => simp [validClearV2Schema] at h
  | str s => simp [validClearV2Schema] at h
  | arr xs => simp [validClearV2Schema] at h

/-! ## Claim C9 -/

theorem jsTrimListNoWs (c : Char) (l : List Char) (c2 : Char)
    (h1 : isJsWs c = false) (h2 : isJsWs c2 = false) :
    jsTrimList ((c :: l) ++ [c2]) = (c :: l) ++ [c2] := by
  rw [jsTrimList]
  have hfront : ((c :: l) ++ [c2]).dropWhile isJsWs = (c :: l) ++ [c2] := by
    simp [List.dropWhile, h1]
  rw [hfront]
  have hrev : ((c :: l) ++ [c2]).reverse = c2 :: (l.reverse ++ [c]) := by
    simp
  rw [hrev]
  have hback : (c2 :: (l.reverse ++ [c])).dropWhile isJsWs = c2 :: (l.reverse ++ [c]) := by
    simp [List.dropWhile, h2]
  rw [hback, ← hrev, List.reverse_reverse]

theorem jsonParseSafeJSONString (ms : List (String × Json))
    (h : numFree (.obj ms) = true) :
    jsonParse (safeJSONString (.obj ms)) = some (.obj ms) := by
  have hrt := (parseEncodeAux (sizeOf (Json.obj ms))).1 (Json.obj ms) le_rfl h
      ((encode (Json.obj ms)).length + 1) [] (by omega)
  rw [List.append_nil] at hrt
  have hdef : jsonParse (safeJSONString (.obj ms))
      = match parseValue ((encode (Json.obj ms)).length + 1) (encode (Json.obj ms)) with
        | some (v, rest) => if (skipWs rest).isEmpty then some v else none
        | none => none := rfl
  rw [hdef, hrt]
  rfl

/-- C9: parsing the serialized (JSON-stringified) form of any schema-valid
response envelope with the tolerant parser succeeds and returns a structure
equal to the original envelope.  Schema validity is the typing declared by
BasicV2Schema and ClearV2Schema in the source. -/
theorem roundtripValidEnvelopes (j : Json)
    (h : validBasicV2Schema j = true ∨ validClearV2Schema j = true) :
    parseModelJSON (some (safeJSONString j)) = .ok j := by
  have hnf : numFree j = true := by
    rcases h with h | h
    · exact numFreeOfValidBasic j h
    · exact numFreeOfValidClear j h
  obtain ⟨ms, rfl⟩ : ∃ ms, j = .obj ms := by
    cases j with
    | obj ms => exact ⟨ms, rfl⟩
    | null => rcases h with h | h <;> simp [validBasicV2Schema, validClearV2Schema] at h
    | bool b => rcases h with h | h <;> simp [validBasicV2Schema, validClearV2Schema] at h
    | num n => rcases h with h | h <;> simp [validBasicV2Schema, validClearV2Schema] at h
    | str s => rcases h with h | h <;> simp [validBasicV2Schema, validClearV2Schema] at h
    | arr xs => rcases h with h | h <;> simp [validBasicV2Schema, validClearV2Schema] at h
  have henc : encode (Json.obj ms) = ('{' :: encodeMembers ms) ++ ['}'] := by
    rw [encode]
  have htriml : jsTrimList (encode (Json.obj ms)) = encode (Json.obj ms) := by
    rw [henc]
    exact jsTrimListNoWs '{' (encodeMembers ms) '}' (by decide) (by decide)
  have htrim : jsTrim (safeJSONString (.obj ms)) = safeJSONString (.obj ms) := by
    rw [safeJSONString, jsTrim]
    exact congrArg String.mk htriml
  have hne : safeJSONString (.obj ms) ≠ "" := by
    rw [safeJSONString, ne_eq, stringMkEqEmpty, henc]
    simp
  rw [parseModelJSON]
  simp only [Option.getD]
  rw [htrim, if_neg (by rw [String.isEmpty_iff]; exact hne)]
  rw [jsonParseSafeJSONString ms hnf]

/-- Witness for C9: a concrete schema-valid basic envelope round-trips
through serialization and the tolerant parser. -/
theorem roundtripValidEnvelopesWitness :
    validBasicV2Schema sampleBasicEnvelope = true
    ∧ parseModelJSON (some (safeJSONString sampleBasicEnvelope))
        = .ok sampleBasicEnvelope :=
  ⟨rfl, roundtripValidEnvelopes sampleBasicEnvelope (Or.inl rfl)⟩
